import Mathlib

/-!
Verification of the rsync-rs proof-of-concept client (protocol 27).

This file shallowly embeds the core of the repository in Lean:

* `recv.rs`     — the receiver (`recv_task`, `recv_data`, `recv_token`);
* `file_list.rs`— the file-list decoder (`recv_file_list`, `recv_file_entry`,
                  `mod_time_eq`);
* `generator.rs`— the generator (`recv_generator`, `generate_and_send_sums`);
* `main.rs`     — the handshake driver (`start_inband_exchange`).

Wire streams are modelled as `List Nat` of bytes (integer readers reduce each
byte mod 256, matching real byte streams, on which every byte is `< 256`).
Asynchronous reads become pure stream-consuming functions returning
`Except Err` or `Option`; reaching end of stream mid-read is `Err.ioError`.
Rust panics (`expect`, `assert!`, out-of-bounds indexing) are modelled as the
distinct error `Err.panicked msg`, never as an ordinary error return.

The repository modules `chksum.rs` and `envelope.rs` are not part of the
sources under verification; the definitions that stand in for them
(`SumHead.read_from`, `SumHead.write_to`, `sum_sizes_sqroot`, `checksum_1`,
`checksum_2`, `readRsyncLong`) are modelled from the spec and marked as such.
Reads that the source performs through the multiplex envelope are modelled
directly on the demultiplexed data-payload byte stream, which is the
envelope's read contract.
-/

namespace RsyncPoc

/-! ## Byte-stream primitives -/

/-- Read exactly `n` bytes; `none` models a failed `read_exact` (EOF). -/
def readExact (n : Nat) (l : List Nat) : Option (List Nat × List Nat) :=
  if n ≤ l.length then some (l.take n, l.drop n) else none

/-- Read one byte (`read_u8`). -/
def readU8 : List Nat → Option (Nat × List Nat)
  | [] => none
  | b :: r => some (b % 256, r)

/-- Read a little-endian unsigned 32-bit integer (`read_u32_le`). -/
def readU32le : List Nat → Option (Nat × List Nat)
  | b0 :: b1 :: b2 :: b3 :: r =>
      some (b0 % 256 + 256 * (b1 % 256) + 65536 * (b2 % 256) +
        16777216 * (b3 % 256), r)
  | _ => none

/-- Read a little-endian unsigned 64-bit integer (`read_u64_le`). -/
def readU64le (l : List Nat) : Option (Nat × List Nat) :=
  match readU32le l with
  | none => none
  | some (lo, r) =>
    match readU32le r with
    | none => none
    | some (hi, r2) => some (lo + 4294967296 * hi, r2)

/-- Reinterpret an unsigned 32-bit value as signed (two's complement). -/
def toSigned32 (v : Nat) : Int :=
  if v < 2147483648 then (v : Int) else (v : Int) - 4294967296

/-- Read a little-endian signed 32-bit integer (`read_i32_le`). -/
def readI32le (l : List Nat) : Option (Int × List Nat) :=
  (readU32le l).map fun p => (toSigned32 p.1, p.2)

/-- Encode an unsigned 32-bit value as 4 little-endian bytes. -/
def writeU32le (v : Nat) : List Nat :=
  [v % 256, v / 256 % 256, v / 65536 % 256, v / 16777216 % 256]

/-- Encode an unsigned 64-bit value as 8 little-endian bytes. -/
def writeU64le (v : Nat) : List Nat :=
  writeU32le (v % 4294967296) ++ writeU32le (v / 4294967296 % 4294967296)

/-- Encode a signed 32-bit value as 4 little-endian bytes (`write_i32_le`). -/
def writeI32le (t : Int) : List Nat :=
  writeU32le ((t % 4294967296).toNat)

/-- Modelled from the spec: the rsync-long integer encoding read by
`RsyncReadExt::read_rsync_long` of the missing `envelope.rs`: a 32-bit value
where the sentinel `0xFFFFFFFF` announces a 64-bit little-endian value. -/
def readRsyncLong (l : List Nat) : Option (Nat × List Nat) :=
  match readU32le l with
  | none => none
  | some (v, r) => if v = 4294967295 then readU64le r else some (v, r)

/-! ## MD4 (RFC 1320)

The source hashes through the external `md4` crate; the crate implements
standard MD4, reproduced here over `Nat` with explicit reduction mod `2^32`.
-/

/-- Rotate a 32-bit word left by `s` bits. -/
def rotl32 (v s : Nat) : Nat :=
  ((v <<< s) ||| (v >>> (32 - s))) % 4294967296

/-- MD4 round-1 auxiliary function `F`. -/
def md4F (x y z : Nat) : Nat := (x &&& y) ||| ((x ^^^ 4294967295) &&& z)

/-- MD4 round-2 auxiliary function `G`. -/
def md4G (x y z : Nat) : Nat := (x &&& y) ||| (x &&& z) ||| (y &&& z)

/-- MD4 round-3 auxiliary function `H`. -/
def md4H (x y z : Nat) : Nat := x ^^^ y ^^^ z

/-- One MD4 operation; the state tuple is rotated so that the next operation
updates the next word. -/
def md4Step (f : Nat → Nat → Nat → Nat) (add : Nat) (X : List Nat)
    (st : Nat × Nat × Nat × Nat) (ks : Nat × Nat) : Nat × Nat × Nat × Nat :=
  match st, ks with
  | (a, b, c, d), (k, s) =>
    (d, rotl32 ((a + f b c d + X.getD k 0 + add) % 4294967296) s, b, c)

/-- Round-1 (word index, shift) schedule. -/
def md4R1 : List (Nat × Nat) :=
  [(0, 3), (1, 7), (2, 11), (3, 19), (4, 3), (5, 7), (6, 11), (7, 19),
   (8, 3), (9, 7), (10, 11), (11, 19), (12, 3), (13, 7), (14, 11), (15, 19)]

/-- Round-2 (word index, shift) schedule. -/
def md4R2 : List (Nat × Nat) :=
  [(0, 3), (4, 5), (8, 9), (12, 13), (1, 3), (5, 5), (9, 9), (13, 13),
   (2, 3), (6, 5), (10, 9), (14, 13), (3, 3), (7, 5), (11, 9), (15, 13)]

/-- Round-3 (word index, shift) schedule. -/
def md4R3 : List (Nat × Nat) :=
  [(0, 3), (8, 9), (4, 11), (12, 15), (2, 3), (10, 9), (6, 11), (14, 15),
   (1, 3), (9, 9), (5, 11), (13, 15), (3, 3), (11, 9), (7, 11), (15, 15)]

/-- Compress one 16-word block into the MD4 state. -/
def md4Block (st : Nat × Nat × Nat × Nat) (X : List Nat) :
    Nat × Nat × Nat × Nat :=
  let s1 := md4R1.foldl (md4Step md4F 0 X) st
  let s2 := md4R2.foldl (md4Step md4G 1518500249 X) s1
  let s3 := md4R3.foldl (md4Step md4H 1859775393 X) s2
  match st, s3 with
  | (a0, b0, c0, d0), (a, b, c, d) =>
    ((a + a0) % 4294967296, (b + b0) % 4294967296,
     (c + c0) % 4294967296, (d + d0) % 4294967296)

/-- Split 64 bytes into 16 little-endian 32-bit words. -/
def md4Words (blk : List Nat) : List Nat :=
  (List.range 16).map fun i =>
    blk.getD (4 * i) 0 % 256 + 256 * (blk.getD (4 * i + 1) 0 % 256) +
      65536 * (blk.getD (4 * i + 2) 0 % 256) +
      16777216 * (blk.getD (4 * i + 3) 0 % 256)

/-- MD4 padding: append `0x80`, zeros to 56 mod 64, then the 64-bit bit count. -/
def md4Pad (m : List Nat) : List Nat :=
  m ++ 128 :: List.replicate ((119 - m.length % 64) % 64) 0 ++
    writeU64le (m.length * 8 % 18446744073709551616)

/-- Split a padded message into 64-byte chunks (`fuel` bounds the recursion;
`chunks64` passes the list length, which suffices since every step consumes at
least one byte). -/
def chunks64Go : Nat → List Nat → List (List Nat)
  | _, [] => []
  | 0, _ => []
  | fuel + 1, x :: xs => (x :: xs).take 64 :: chunks64Go fuel ((x :: xs).drop 64)

/-- Split a byte list into 64-byte chunks. -/
def chunks64 (l : List Nat) : List (List Nat) := chunks64Go l.length l

/-- The MD4 digest of a byte sequence, as 16 bytes. -/
def md4B (m : List Nat) : List Nat :=
  let st := (chunks64 (md4Pad m)).foldl (fun st blk => md4Block st (md4Words blk))
    (1732584193, 4023233417, 2562383102, 271733878)
  match st with
  | (a, b, c, d) => writeU32le a ++ writeU32le b ++ writeU32le c ++ writeU32le d

/-! ## Data model -/

/-- A timestamp: seconds since the Unix epoch plus a sub-second part
(`std::time::SystemTime`). `mod_time_eq` compares seconds only. -/
structure MTime where
  secs : Nat
  nanos : Nat
deriving DecidableEq, Repr

/-- `FileEntry` of `file_list.rs`. -/
structure FileEntry where
  name : List Nat
  len : Nat
  modify_time : MTime
  mode : Nat
  link_target : Option (List Nat)
  idx : Int
deriving DecidableEq, Repr

/-- `SumHead` of the missing `chksum.rs`; fields per the spec's data model
(all unsigned 32-bit). -/
structure SumHead where
  checksum_count : Nat
  block_len : Nat
  checksum_len : Nat
  remainder_len : Nat
deriving DecidableEq, Repr

/-- Modelled from the spec: `SumHead::read_from` of the missing `chksum.rs`
reads the four unsigned 32-bit fields in declaration order. -/
def SumHead.read_from (l : List Nat) : Option (SumHead × List Nat) :=
  match readU32le l with
  | none => none
  | some (cc, r1) =>
    match readU32le r1 with
    | none => none
    | some (bl, r2) =>
      match readU32le r2 with
      | none => none
      | some (cl, r3) =>
        match readU32le r3 with
        | none => none
        | some (rl, r4) => some (⟨cc, bl, cl, rl⟩, r4)

/-- Modelled from the spec: `SumHead::write_to` of the missing `chksum.rs`
writes the four unsigned 32-bit fields in declaration order. -/
def SumHead.write_to (h : SumHead) : List Nat :=
  writeU32le h.checksum_count ++ writeU32le h.block_len ++
    writeU32le h.checksum_len ++ writeU32le h.remainder_len

/-- Errors of the embedded client. Constructors correspond to the `bail!` and
`ensure!` sites of the source and to the spec's error taxonomy;
`Err.missingBasis` is modelled from the spec taxonomy only (no code under
`src/` produces it). `Err.panicked` models a Rust panic (`expect`, `assert!`,
out-of-bounds slice indexing), which aborts the task rather than returning an
error. -/
inductive Err where
  | ioError
  | pathTooLong
  | checksumMismatch
  | versionTooOld (v : Int)
  | serverError
  | authRequired
  | invalidGreeting
  | missingBasis
  | panicked (msg : String)
deriving DecidableEq, Repr

/-- `FileToken` of `recv.rs`. -/
inductive FileToken where
  | Data (bytes : List Nat)
  | Copied (k : Nat)
  | Done
deriving DecidableEq, Repr

/-- `mod_time_eq` of `file_list.rs`: whole-second comparison of timestamps. -/
def mod_time_eq (x y : MTime) : Bool := x.secs == y.secs

/-! ## Receiver (`recv.rs`) -/

/-- `Receiver::recv_token`: a signed 32-bit value `t`; `t = 0` is `Done`,
`t > 0` is `Data` of `t` freshly read bytes, `t < 0` is `Copied (-t - 1)`
(the source computes `-(token + 1) as u32`). -/
def recv_token (l : List Nat) : Except Err (FileToken × List Nat) :=
  match readI32le l with
  | none => .error .ioError
  | some (t, rest) =>
    if t = 0 then .ok (.Done, rest)
    else if 0 < t then
      match readExact t.toNat rest with
      | none => .error .ioError
      | some (buf, rest2) => .ok (.Data buf, rest2)
    else .ok (.Copied (-(t + 1)).toNat, rest)

/-- The `data_len` a `Copied k` token copies from the basis:
`remainder_len` for the final block when the remainder is non-zero, else
`block_len`. The `checksum_count as u32 - 1` subtraction of the source is
modelled with u32 wrap-around. -/
def recvCopyLen (h : SumHead) (k : Nat) : Nat :=
  if k = (h.checksum_count + 4294967295) % 4294967296 ∧ h.remainder_len ≠ 0
  then h.remainder_len
  else h.block_len

/-- The token loop of `Receiver::recv_data`. `tfile` is the bytes written to
the temporary target file, `hacc` the bytes fed to the MD4 hasher so far.
A `Copied k` token seeks the basis to `offset = k * block_len` and reads
exactly `recvCopyLen h k` bytes (reading past the end of the basis is a
failed `read_exact`). `fuel` bounds the recursion; the callers pass
`wire.length + 1`, which never runs out because every iteration consumes at
least the 4 bytes of the token header. The unused `transferred`/`copied`
f64 logging counters of the source are not modelled. -/
def recv_data_loop (h : SumHead) (basis : Option (List Nat)) :
    Nat → List Nat → List Nat → List Nat →
    Except Err (List Nat × List Nat × List Nat)
  | 0, _, _, _ => .error .ioError
  | fuel + 1, tfile, hacc, wire =>
    match recv_token wire with
    | .error e => .error e
    | .ok (.Done, rest) => .ok (tfile, hacc, rest)
    | .ok (.Data buf, rest) =>
        recv_data_loop h basis fuel (tfile ++ buf) (hacc ++ buf) rest
    | .ok (.Copied k, rest) =>
        match basis with
        | none => .error (.panicked "incremental")
        | some bs =>
          if k * h.block_len + recvCopyLen h k ≤ bs.length then
            recv_data_loop h basis fuel
              (tfile ++ (bs.drop (k * h.block_len)).take (recvCopyLen h k))
              (hacc ++ (bs.drop (k * h.block_len)).take (recvCopyLen h k)) rest
          else .error .ioError

/-- `Receiver::recv_data`: read the `SumHead`, run the token loop with the
hasher seeded by the 4 little-endian seed bytes, read the remote digest
(`local_checksum.len()` bytes, i.e. the MD4 output length) and compare.
Returns the reconstructed file bytes, the digest read from the wire, and the
remaining stream. -/
def recv_data (seed : Int) (basis : Option (List Nat)) (wire : List Nat) :
    Except Err (List Nat × List Nat × List Nat) :=
  match SumHead.read_from wire with
  | none => .error .ioError
  | some (h, w1) =>
    match recv_data_loop h basis (w1.length + 1) [] (writeI32le seed) w1 with
    | .error e => .error e
    | .ok (tfile, hacc, w2) =>
      match readExact (md4B hacc).length w2 with
      | none => .error .ioError
      | some (remote_checksum, w3) =>
        if md4B hacc = remote_checksum then .ok (tfile, remote_checksum, w3)
        else .error .checksumMismatch

/-- The filesystem as seen by the receiver: an association list from file
names (relative to `opts.dest`) to contents and modification time. Earlier
pairs shadow later ones, so prepending updates. -/
structure FileData where
  content : List Nat
  mtime : MTime
deriving DecidableEq, Repr

/-- Receiver-side destination filesystem state. -/
def Fs := List (List Nat × FileData)

/-- Look up a file by name. -/
def fs_get : Fs → List Nat → Option FileData
  | [], _ => none
  | (n, d) :: r, name => if n = name then some d else fs_get r name

/-- Create/overwrite a file. -/
def fs_set (fs : Fs) (name : List Nat) (d : FileData) : Fs := (name, d) :: fs

/-- The `idx as usize` cast of the source: two's-complement conversion of an
`i32` to a 64-bit `usize`. -/
def usize_of_i32 (i : Int) : Nat := (i % 18446744073709551616).toNat

/-- The main loop of `Receiver::recv_task`. Reads a signed 32-bit index;
`-1` first bumps the phase and then terminates; any other index selects
`file_list[idx as usize]` with no bounds check (out of range is a Rust panic).
The basis is the destination file if present; after a successful
`recv_data`, the destination is created with the reconstructed content and
its mtime set to `entry.modify_time` unless the fresh file's mtime (`now`,
the write clock passed as a parameter) already agrees at second resolution.
On error the loop aborts, returning the filesystem as it stood.
`fuel` bounds the recursion; `recv_task` passes `wire.length + 1`, which
never runs out because every iteration consumes at least 4 bytes. -/
def recv_task_loop (seed : Int) (file_list : List FileEntry) (now : MTime) :
    Nat → Nat → Fs → List Nat → Except (Err × Fs) Fs
  | 0, _, fs, _ => .error (.ioError, fs)
  | fuel + 1, phase, fs, wire =>
    match readI32le wire with
    | none => .error (.ioError, fs)
    | some (idx, rest) =>
      if idx = -1 then
        if phase = 0 then recv_task_loop seed file_list now fuel 1 fs rest
        else .ok fs
      else
        match file_list.get? (usize_of_i32 idx) with
        | none => .error (.panicked "index out of bounds", fs)
        | some entry =>
          match recv_data seed ((fs_get fs entry.name).map (·.content)) rest with
          | .error e => .error (e, fs)
          | .ok (tfile, _digest, rest2) =>
            recv_task_loop seed file_list now fuel phase
              (fs_set fs entry.name
                ⟨tfile, if mod_time_eq now entry.modify_time then now
                        else entry.modify_time⟩) rest2

/-- `Receiver::recv_task`. -/
def recv_task (seed : Int) (file_list : List FileEntry) (now : MTime)
    (fs : Fs) (wire : List Nat) : Except (Err × Fs) Fs :=
  recv_task_loop seed file_list now (wire.length + 1) 0 fs wire

/-! ## Token-stream decoding (specification side, for claim C1)

`decodeTokens` parses the per-file token stream independently of the
receiver's reconstruction, and `tokenPayload` gives each token's payload:
the bytes of a `Data` token, or the bytes the receiver reads from the basis
file for a `Copied` token. -/

/-- Parse tokens up to and including `Done`. -/
def decodeTokens : Nat → List Nat → Option (List FileToken × List Nat)
  | 0, _ => none
  | fuel + 1, wire =>
    match recv_token wire with
    | .error _ => none
    | .ok (.Done, rest) => some ([], rest)
    | .ok (.Data buf, rest) =>
      (decodeTokens fuel rest).map fun p => (FileToken.Data buf :: p.1, p.2)
    | .ok (.Copied k, rest) =>
      (decodeTokens fuel rest).map fun p => (FileToken.Copied k :: p.1, p.2)

/-- The payload a token contributes to the reconstructed file. -/
def tokenPayload (h : SumHead) (basis : Option (List Nat)) :
    FileToken → Option (List Nat)
  | .Done => some []
  | .Data buf => some buf
  | .Copied k =>
    match basis with
    | none => none
    | some bs =>
      if k * h.block_len + recvCopyLen h k ≤ bs.length then
        some ((bs.drop (k * h.block_len)).take (recvCopyLen h k))
      else none

/-- The payloads of a token list, in order (`none` when some `Copied` token
cannot be served from the basis). -/
def tokenPayloads (h : SumHead) (basis : Option (List Nat)) :
    List FileToken → Option (List (List Nat))
  | [] => some []
  | t :: ts =>
    match tokenPayload h basis t with
    | none => none
    | some p =>
      match tokenPayloads h basis ts with
      | none => none
      | some ps => some (p :: ps)

/-! ## File-list decoder (`file_list.rs`) -/

/-- `unix_mode::is_dir`: the file-type bits equal `S_IFDIR`. -/
def unix_is_dir (mode : Nat) : Bool := mode &&& 0xF000 == 0x4000

/-- `unix_mode::is_file`: the file-type bits equal `S_IFREG`. -/
def unix_is_file (mode : Nat) : Bool := mode &&& 0xF000 == 0x8000

/-- `unix_mode::is_symlink`: the file-type bits equal `S_IFLNK`. -/
def unix_is_symlink (mode : Nat) : Bool := mode &&& 0xF000 == 0xA000

/-- The first two reads of `recv_file_entry`: the 8-bit inherited-name length
(read only when `XMIT_SAME_NAME`, bit 5, is set) and the name suffix length
(32-bit when `XMIT_LONG_NAME`, bit 6, is set, else 8-bit). -/
def entry_name_lens (flags : Nat) (w : List Nat) :
    Option (Nat × Nat × List Nat) :=
  match (if flags &&& 32 ≠ 0 then readU8 w else some (0, w)) with
  | none => none
  | some (inherit_name_len, w1) =>
    match (if flags &&& 64 ≠ 0 then readU32le w1 else readU8 w1) with
    | none => none
    | some (name_len, w2) => some (inherit_name_len, name_len, w2)

/-- `EnvelopedConn::recv_file_entry`. Returns the decoded entry, the updated
scratch name buffer, and the remaining stream. The `PATH_MAX` guard and the
`assert!` mirror the source: the guard compares `name_len >
PATH_MAX - inherit_name_len` in u32 arithmetic (no underflow: the inherited
length is at most 255), and a failing `assert!` is the panic
`"file list inconsistency"`. `name_scratch.resize` followed by `read_exact`
into `[inherit_name_len..]` nets to truncating the scratch to the inherited
prefix and appending the freshly read suffix. `prev.expect("prev must
exist")` is the corresponding panic. uid/gid/rdev are not read (the selected
options disable them). -/
def recv_file_entry (flags : Nat) (name_scratch : List Nat)
    (prev : Option FileEntry) (w : List Nat) :
    Except Err (FileEntry × List Nat × List Nat) :=
  match entry_name_lens flags w with
  | none => .error .ioError
  | some (inherit_name_len, name_len, w2) =>
    if 4096 - inherit_name_len < name_len then .error .pathTooLong
    else if inherit_name_len ≤ name_scratch.length then
      match readExact name_len w2 with
      | none => .error .ioError
      | some (suffix, w3) =>
        let scratch := name_scratch.take inherit_name_len ++ suffix
        match readRsyncLong w3 with
        | none => .error .ioError
        | some (len, w4) =>
          match ((if flags &&& 128 ≠ 0 then
                   (match prev with
                    | none => .error (Err.panicked "prev must exist")
                    | some p => .ok (p.modify_time, w4))
                 else
                   (match readU32le w4 with
                    | none => .error Err.ioError
                    | some (secs, w5) => .ok (MTime.mk secs 0, w5)) :
                   Except Err (MTime × List Nat))) with
          | .error e => .error e
          | .ok (modify_time, w5) =>
            match ((if flags &&& 2 ≠ 0 then
                     (match prev with
                      | none => .error (Err.panicked "prev must exist")
                      | some p => .ok (p.mode, w5))
                   else
                     (match readU32le w5 with
                      | none => .error Err.ioError
                      | some (mode, w6) => .ok (mode, w6)) :
                     Except Err (Nat × List Nat))) with
            | .error e => .error e
            | .ok (mode, w6) =>
              if unix_is_symlink mode then
                match readU32le w6 with
                | none => .error .ioError
                | some (tlen, w7) =>
                  match readExact tlen w7 with
                  | none => .error .ioError
                  | some (target, w8) =>
                    .ok (⟨scratch, len, modify_time, mode, some target,
                          2147483647⟩, scratch, w8)
              else
                .ok (⟨scratch, len, modify_time, mode, none, 2147483647⟩,
                     scratch, w6)
    else .error (.panicked "file list inconsistency")

/-- The strict lexicographic byte order that `Vec<u8>::cmp` induces:
shorter prefixes sort first. -/
def byteListLt : List Nat → List Nat → Bool
  | [], [] => false
  | [], _ :: _ => true
  | _ :: _, [] => false
  | a :: as_, b :: bs =>
    if a < b then true else if b < a then false else byteListLt as_ bs

/-- The non-strict name order used to model `sort_unstable_by(cmp)`. -/
def entry_le (x y : FileEntry) : Prop := byteListLt y.name x.name = false

instance : DecidableRel entry_le := fun x y =>
  inferInstanceAs (Decidable (byteListLt y.name x.name = false))

/-- `Vec::dedup_by(|x, y| x.name == y.name)` keeps the first element of each
run of equal names; `dedup_go prev l` drops the elements of `l` whose name
repeats the most recently kept entry. -/
def dedup_go (prev : FileEntry) : List FileEntry → List FileEntry
  | [] => []
  | b :: r => if b.name = prev.name then dedup_go prev r
              else b :: dedup_go b r

/-- Adjacent deduplication by name, keeping the first of each run. -/
def dedup_by_name : List FileEntry → List FileEntry
  | [] => []
  | a :: r => a :: dedup_go a r

/-- The index assignment loop: `idx = k, k+1, ...` in list order. -/
def assign_idx : Int → List FileEntry → List FileEntry
  | _, [] => []
  | k, e :: r => { e with idx := k } :: assign_idx (k + 1) r

/-- The post-processing of `recv_file_list`: sort by name, de-duplicate
adjacent equal names keeping the first, then assign dense indices. The
`i32::try_from(idx).expect("file list too long")` of the source panics when
an index exceeds `i32::MAX`, i.e. when more than `2^31` entries survive.
`sort_unstable_by` leaves the relative order of equal-name entries
unspecified; insertion sort realises one admissible order. -/
def file_list_finalize (raw : List FileEntry) : Except Err (List FileEntry) :=
  if 2147483648 < (dedup_by_name (List.insertionSort entry_le raw)).length
  then .error (.panicked "file list too long")
  else .ok (assign_idx 0 (dedup_by_name (List.insertionSort entry_le raw)))

/-- The record loop of `EnvelopedConn::recv_file_list`: read a flag byte,
stop on zero, otherwise decode one entry (threading the scratch name buffer
and the previously decoded entry) and continue. `fuel` bounds the recursion;
`recv_file_list` passes `wire.length + 1`, which never runs out because each
iteration consumes at least the flag byte. -/
def file_list_go : Nat → List FileEntry → List Nat → List Nat →
    Except Err (List FileEntry)
  | 0, _, _, _ => .error .ioError
  | fuel + 1, list, name_scratch, wire =>
    match readU8 wire with
    | none => .error .ioError
    | some (b, rest) =>
      if b = 0 then file_list_finalize list
      else
        match recv_file_entry b name_scratch list.getLast? rest with
        | .error e => .error e
        | .ok (entry, scratch2, rest2) =>
          file_list_go fuel (list ++ [entry]) scratch2 rest2

/-- `EnvelopedConn::recv_file_list`. -/
def recv_file_list (wire : List Nat) : Except Err (List FileEntry) :=
  file_list_go (wire.length + 1) [] [] wire

/-! ## Generator (`generator.rs`) -/

/-- Modelled from the spec: the square-root block-size heuristic
`SumHead::sum_sizes_sqroot` of the missing `chksum.rs`: `block_len` is
`⌈√len⌉` rounded up to a multiple of 8 and clamped into `[700, 2^29]`;
`checksum_len` is 16 for protocol 27; `checksum_count = ⌈len / block_len⌉`;
`remainder_len = len mod block_len`. -/
def sum_sizes_sqroot (len : Nat) : SumHead :=
  let s := Nat.sqrt len
  let s := if s * s < len then s + 1 else s
  let b := (s + 7) / 8 * 8
  let block_len := if b < 700 then 700 else if 536870912 < b then 536870912 else b
  { checksum_count := (len + block_len - 1) / block_len
    block_len := block_len
    checksum_len := 16
    remainder_len := len % block_len }

/-- Modelled from the spec: the rolling checksum (`checksum_1` of the missing
`chksum.rs`), the classic Adler-like sum: low half `Σ bᵢ mod 2^16`, high half
`Σ (len − i)·bᵢ mod 2^16`. -/
def checksum_1 (b : List Nat) : Nat :=
  let s1 := (b.foldl (· + ·) 0) % 65536
  let s2 := (b.enum.foldl (fun acc p => acc + (b.length - p.1) * p.2) 0) % 65536
  s1 + 65536 * s2

/-- Modelled from the spec: the strong checksum (`checksum_2` of the missing
`chksum.rs`): seeded MD4 over the block, the 4 little-endian seed bytes
prepended, truncated to `checksum_len` (16 in protocol 27, so untruncated). -/
def checksum_2 (seed : Int) (b : List Nat) : List Nat :=
  md4B (writeI32le seed ++ b)

/-- What the generator sees of one destination path: the stat metadata plus
the readable content. `size` is `Metadata::size()`; for a regular file it is
the content length, for a directory the on-disk directory size (whose
content reads fail, as reads of a directory do). -/
inductive FKind where
  | regular
  | directory
  | other
deriving DecidableEq, Repr

/-- Destination metadata and content for the generator. -/
structure GMeta where
  kind : FKind
  size : Nat
  mtime : MTime
  content : List Nat
deriving DecidableEq, Repr

/-- The block loop of `Generator::generate_and_send_sums`: for each of
`count` blocks read `min(block_len, remaining)` bytes at the current file
position and emit the rolling checksum (`sum1 as i32`, little-endian) and
the strong checksum. A failing `read_exact` aborts with the bytes emitted so
far. -/
def sums_loop (seed : Int) (block_len : Nat) (content : List Nat) :
    Nat → Nat → Nat → List Nat × Option Err
  | 0, _, _ => ([], none)
  | count + 1, pos, remaining =>
    let n1 := min block_len remaining
    if pos + n1 ≤ content.length then
      let blk := (content.drop pos).take n1
      let piece := writeI32le (toSigned32 (checksum_1 blk)) ++ checksum_2 seed blk
      let (rest, e) := sums_loop seed block_len content count (pos + n1)
        (remaining - n1)
      (piece ++ rest, e)
    else ([], some .ioError)

/-- `Generator::generate_and_send_sums`: write the square-root `SumHead` for
the basis size, then the per-block checksums. Returns the bytes written to
the wire and the error, if any, that aborted the task. -/
def generate_and_send_sums (seed : Int) (file_len : Nat) (content : List Nat) :
    List Nat × Option Err :=
  let sum_head := sum_sizes_sqroot file_len
  let (sums, e) := sums_loop seed sum_head.block_len content
    sum_head.checksum_count 0 file_len
  (sum_head.write_to ++ sums, e)

/-- `Generator::recv_generator` for one entry. `dest` is the stat result for
the destination path (`none` models `ErrorKind::NotFound`; other stat and
open errors are outside the model, so `File::open` succeeds exactly when the
destination exists — on Linux a directory opens read-only as well). Returns
the bytes written to the wire and the error, if any, that aborted the task.
Directory creation and the skip of non-regular entries write nothing. -/
def recv_generator (seed : Int) (entry : FileEntry) (dest : Option GMeta) :
    List Nat × Option Err :=
  if unix_is_dir entry.mode then ([], none)
  else if ¬ unix_is_file entry.mode then ([], none)
  else
    match dest with
    | some meta =>
      if meta.size = entry.len ∧ mod_time_eq meta.mtime entry.modify_time then
        ([], none)
      else
        let (sums, e) := generate_and_send_sums seed meta.size meta.content
        (writeI32le entry.idx ++ sums, e)
    | none =>
      (writeI32le entry.idx ++ SumHead.write_to ⟨0, 0, 0, 0⟩, none)

/-! ## Handshake driver (`main.rs`) -/

/-- `BufReader::read_line`: consume up to and including the first newline
(at end of input, return what remains — at EOF proper, the empty line). -/
def read_line : List Char → List Char × List Char
  | [] => ([], [])
  | c :: r =>
    if c = '\n' then ([c], r)
    else
      let p := read_line r
      (c :: p.1, p.2)

/-- ASCII whitespace, as trimmed by `str::trim` on protocol lines. -/
def isWsChar (c : Char) : Bool :=
  c == ' ' || c == '\t' || c == '\n' || c == '\r'

/-- `str::trim` on a protocol line. -/
def trimChars (l : List Char) : List Char :=
  ((l.dropWhile isWsChar).reverse.dropWhile isWsChar).reverse

/-- `str::strip_prefix`: drop `pre` from the front of `l`, or fail. -/
def drop_front : List Char → List Char → Option (List Char)
  | [], l => some l
  | _ :: _, [] => none
  | p :: ps, c :: cs => if c = p then drop_front ps cs else none

/-- Accumulate a maximal run of decimal digits. -/
def digits_go (acc : Nat) : List Char → Nat × List Char
  | [] => (acc, [])
  | c :: r =>
    if c.isDigit then digits_go (acc * 10 + (c.toNat - 48)) r
    else (acc, c :: r)

/-- `scan_fmt` parsing of one `i32`: skip leading whitespace, optional minus
sign, a maximal digit run; out-of-range values are a scan error. -/
def parse_i32 (l : List Char) : Option (Int × List Char) :=
  match l.dropWhile isWsChar with
  | '-' :: c :: r =>
    if c.isDigit then
      let p := digits_go 0 (c :: r)
      if p.1 ≤ 2147483648 then some (-(p.1 : Int), p.2) else none
    else none
  | c :: r =>
    if c.isDigit then
      let p := digits_go 0 (c :: r)
      if p.1 < 2147483648 then some ((p.1 : Int), p.2) else none
    else none
  | [] => none

/-- The version scan of `start_inband_exchange`:
`scan_fmt!("{}.{}", i32, i32)` keeps the integer before the dot, and its
`or_else` fallback `scan_fmt!("{}", i32)` re-parses the same leading integer,
so both branches yield the first `i32` of the header (or fail when there is
none). -/
def scan_version (l : List Char) : Option Int :=
  (parse_i32 l).map (·.1)

/-- The parsed major protocol version of the greeting line: trim, strip the
`@RSYNCD: ` prefix, scan the version. -/
def greeting_version (line : List Char) : Option Int :=
  match drop_front "@RSYNCD: ".toList (trimChars line) with
  | none => none
  | some hdr => scan_version hdr

/-- Case-exact prefix test on a line (`str::starts_with`). -/
def starts_with_str (p : String) (l : List Char) : Bool :=
  p.toList.isPrefixOf l

/-- The MOTD drain loop of `start_inband_exchange`: read lines until
`@RSYNCD: OK`; `@ERROR…` and `@RSYNCD: AUTHREQD …` fail; other lines go to
the log. `fuel` bounds the recursion (the source busy-loops if the server
closes the stream before `@RSYNCD: OK`; the model reports `ioError` then). -/
def motd_loop : Nat → List Char → Except Err (List Char)
  | 0, _ => .error .ioError
  | fuel + 1, rx =>
    let p := read_line rx
    if starts_with_str "@ERROR" p.1 then .error .serverError
    else if starts_with_str "@RSYNCD: AUTHREQD " p.1 then .error .authRequired
    else if starts_with_str "@RSYNCD: OK" p.1 then .ok p.2
    else motd_loop fuel p.2

/-- The fixed server options of the client (`SERVER_OPTIONS`), one line
each. -/
def server_option_lines : List String :=
  ["--server\n", "--sender\n", "-ltpr\n", ".\n"]

/-- `Conn::start_inband_exchange`: send the client greeting, read and parse
the server greeting, fail with `VersionTooOld` below protocol 27, then send
the module name, drain the MOTD, and send the server options, the path (when
non-empty) and the terminating empty line. Returns the lines written to the
connection in order, and the result (the remaining inbound stream on
success). -/
def start_inband_exchange (module path : String) (rx : List Char) :
    List String × Except Err (List Char) :=
  let w0 := ["@RSYNCD: 27.0\n"]
  let p := read_line rx
  match greeting_version p.1 with
  | none => (w0, .error .invalidGreeting)
  | some v =>
    if v < 27 then (w0, .error (.versionTooOld v))
    else
      let w1 := w0 ++ [module ++ "\n"]
      match motd_loop (p.2.length + 1) p.2 with
      | .error e => (w1, .error e)
      | .ok rx2 =>
        let w2 := w1 ++ server_option_lines ++
          (if path = "" then [] else [path ++ "\n"]) ++ ["\n"]
        (w2, .ok rx2)

/-! ## Reader lemmas -/

theorem readExact_eq {n : Nat} {l a r : List Nat}
    (h : readExact n l = some (a, r)) :
    a = l.take n ∧ r = l.drop n ∧ n ≤ l.length ∧ a.length = n := by
  unfold readExact at h
  split at h
  · rename_i hle
    simp only [Option.some.injEq, Prod.mk.injEq] at h
    refine ⟨h.1.symm, h.2.symm, hle, ?_⟩
    simp [← h.1, List.length_take, Nat.min_eq_left hle]
  · exact absurd h (by simp)

theorem readU32le_writeU32le (v : Nat) (tail : List Nat)
    (hv : v < 4294967296) :
    readU32le (writeU32le v ++ tail) = some (v, tail) := by
  simp only [writeU32le, List.cons_append, List.nil_append, readU32le,
    Option.some.injEq, Prod.mk.injEq]
  exact ⟨by omega, trivial⟩

theorem readI32le_writeI32le (t : Int) (tail : List Nat)
    (h1 : -2147483648 ≤ t) (h2 : t < 2147483648) :
    readI32le (writeI32le t ++ tail) = some (t, tail) := by
  have hv : (t % 4294967296).toNat < 4294967296 := by omega
  rw [readI32le, writeI32le, readU32le_writeU32le _ _ hv]
  simp only [Option.map_some', toSigned32, Option.some.injEq, Prod.mk.injEq]
  exact ⟨by split <;> omega, trivial⟩

theorem readU32le_range {l : List Nat} {v : Nat} {r : List Nat}
    (h : readU32le l = some (v, r)) : v < 4294967296 := by
  rcases l with _ | ⟨b0, l⟩
  · simp [readU32le] at h
  rcases l with _ | ⟨b1, l⟩
  · simp [readU32le] at h
  rcases l with _ | ⟨b2, l⟩
  · simp [readU32le] at h
  rcases l with _ | ⟨b3, l⟩
  · simp [readU32le] at h
  simp only [readU32le, Option.some.injEq, Prod.mk.injEq] at h
  omega

theorem readI32le_range {l : List Nat} {t : Int} {r : List Nat}
    (h : readI32le l = some (t, r)) : -2147483648 ≤ t ∧ t < 2147483648 := by
  rw [readI32le] at h
  rcases hu : readU32le l with _ | ⟨v, r'⟩ <;> rw [hu] at h
  · simp at h
  · have hv := readU32le_range hu
    simp only [Option.map_some', Option.some.injEq, Prod.mk.injEq] at h
    rw [← h.1, toSigned32]
    split <;> omega

theorem readU8_lt {l : List Nat} {b : Nat} {r : List Nat}
    (h : readU8 l = some (b, r)) : b < 256 := by
  rcases l with _ | ⟨x, l⟩
  · simp [readU8] at h
  simp only [readU8, Option.some.injEq, Prod.mk.injEq] at h
  omega

theorem md4B_length (m : List Nat) : (md4B m).length = 16 := by
  rw [md4B]
  rcases (chunks64 (md4Pad m)).foldl (fun st blk => md4Block st (md4Words blk))
    (1732584193, 4023233417, 2562383102, 271733878) with ⟨a, b, c, d⟩
  rfl

/-! ## Claim C4: token decoding -/

/-- Claim C4: for every signed 32-bit wire value `t`, token decoding yields
`Done` when `t = 0`, `Data` of exactly `t` freshly read bytes when `t > 0`
(provided the stream holds them), and `Copied (−t − 1)` when `t < 0`. -/
theorem recv_token_decoding (t : Int) (tail : List Nat)
    (hlo : -2147483648 ≤ t) (hhi : t < 2147483648) :
    (t = 0 → recv_token (writeI32le t ++ tail) = .ok (.Done, tail)) ∧
    (0 < t → t.toNat ≤ tail.length →
      recv_token (writeI32le t ++ tail) =
        .ok (.Data (tail.take t.toNat), tail.drop t.toNat)) ∧
    (t < 0 →
      recv_token (writeI32le t ++ tail) = .ok (.Copied (-(t + 1)).toNat, tail)) := by
  have hr := readI32le_writeI32le t tail hlo hhi
  refine ⟨fun h => ?_, fun h hlen => ?_, fun h => ?_⟩
  · subst h
    simp [recv_token, hr]
  · have h0 : ¬ t = 0 := by omega
    simp only [recv_token, hr, h0, if_false, h, if_true, readExact, hlen,
      if_pos hlen]
  · have h0 : ¬ t = 0 := by omega
    have h1 : ¬ 0 < t := by omega
    simp only [recv_token, hr, h0, if_false, h1]

/-- Witness for claim C4 at the concrete token value `t = −5`. -/
theorem recv_token_decoding_witness :
    recv_token (writeI32le (-5) ++ [9, 9]) = .ok (.Copied 4, [9, 9]) :=
  (recv_token_decoding (-5) [9, 9] (by decide) (by decide)).2.2 (by decide)

/-! ## Claim C7: Copied token without a basis file -/

/-- Claim C7 (amended): when a `Copied` token (a negative wire value)
arrives while no basis file is open, the receiver panics via
`expect("incremental")` — it does not return a `MissingBasis` error. -/
theorem recv_data_loop_missing_basis (h : SumHead) (fuel : Nat)
    (tfile hacc wire : List Nat) (t : Int) (rest : List Nat)
    (hfuel : 1 ≤ fuel) (hread : readI32le wire = some (t, rest)) (hneg : t < 0) :
    recv_data_loop h none fuel tfile hacc wire = .error (.panicked "incremental") := by
  rcases fuel with _ | fuel
  · omega
  · have h0 : ¬ t = 0 := by omega
    have h1 : ¬ 0 < t := by omega
    simp only [recv_data_loop, recv_token, hread, h0, if_false, h1]

/-- Witness for claim C7's amended theorem: a `Copied 0` token with no basis
open panics. -/
theorem recv_data_loop_missing_basis_witness :
    recv_data_loop ⟨1, 700, 16, 0⟩ none 5 [] [] (writeI32le (-1)) =
      .error (.panicked "incremental") :=
  recv_data_loop_missing_basis ⟨1, 700, 16, 0⟩ 5 [] [] (writeI32le (-1)) (-1) []
    (by decide) (by decide) (by decide)

/-- The wire of claim C7's counterexample: a `SumHead` announcing one block,
then the `Copied 0` token (wire value `−1`). -/
def c7wire : List Nat := SumHead.write_to ⟨1, 700, 16, 0⟩ ++ writeI32le (-1)

/-- Counterexample to claim C7 as stated: on a `Copied` token with no basis
file open, `recv_data` panics with `expect("incremental")`; it does not fail
with the `MissingBasis` error of the spec's taxonomy. -/
theorem recv_data_no_missing_basis_error :
    recv_data 0 none c7wire = .error (.panicked "incremental") ∧
      Err.panicked "incremental" ≠ Err.missingBasis := by
  constructor
  · rfl
  · decide

/-! ## Claim C5: length of the trailing digest read -/

/-- Claim C5 (amended): after `Done`, the receiver reads exactly 16 bytes
(the MD4 output length, `local_checksum.len()`) as the remote whole-file
digest — regardless of the `checksum_len` field of the `SumHead` it just
received. -/
theorem recv_data_digest_sixteen (seed : Int) (basis : Option (List Nat))
    (wire tfile digest rest : List Nat)
    (hok : recv_data seed basis wire = .ok (tfile, digest, rest)) :
    digest.length = 16 := by
  rw [recv_data] at hok
  split at hok
  · simp at hok
  split at hok
  · simp at hok
  split at hok
  · simp at hok
  rename_i h w1 heq tf hacc w2 hl d w3 hd
  split at hok
  · have hlen := (readExact_eq hd).2.2.2
    simp only [Except.ok.injEq, Prod.mk.injEq] at hok
    rw [← hok.2.1, hlen, md4B_length]
  · simp at hok

/-- Witness wire for claim C5's amended theorem: an empty-payload reception
with `checksum_len = 16`. -/
def c5wWire : List Nat :=
  SumHead.write_to ⟨0, 0, 16, 0⟩ ++ writeI32le 0 ++ md4B (writeI32le 3)

/-- Witness for claim C5's amended theorem. -/
theorem recv_data_digest_sixteen_witness :
    (md4B (writeI32le 3)).length = 16 :=
  recv_data_digest_sixteen 3 none c5wWire [] (md4B (writeI32le 3)) []
    (by rfl)

/-- The wire of claim C5's counterexample: a `SumHead` whose `checksum_len`
is 2, an immediate `Done`, then the 16-byte digest the receiver actually
reads. -/
def c5wire : List Nat :=
  SumHead.write_to ⟨0, 0, 2, 0⟩ ++ writeI32le 0 ++ md4B (writeI32le 0)

/-- Counterexample to claim C5 as stated: with `checksum_len = 2` on the
wire, the reception still succeeds by reading a 16-byte trailing digest —
not `checksum_len` bytes. -/
theorem recv_data_digest_ignores_checksum_len :
    SumHead.read_from c5wire =
      some (⟨0, 0, 2, 0⟩, writeI32le 0 ++ md4B (writeI32le 0)) ∧
    recv_data 0 none c5wire = .ok ([], md4B (writeI32le 0), []) ∧
    (md4B (writeI32le 0)).length = 16 ∧ (16 : Nat) ≠ 2 := by
  refine ⟨rfl, rfl, md4B_length _, by decide⟩

/-! ## Claim C1: reconstruction and whole-file digest -/

theorem recv_data_loop_ok (h : SumHead) (basis : Option (List Nat)) :
    ∀ fuel tfile hacc wire tf ha rest,
    recv_data_loop h basis fuel tfile hacc wire = .ok (tf, ha, rest) →
    ∃ toks ps, decodeTokens fuel wire = some (toks, rest) ∧
      tokenPayloads h basis toks = some ps ∧
      tf = tfile ++ ps.flatten ∧ ha = hacc ++ ps.flatten := by
  intro fuel
  induction fuel with
  | zero =>
    intro tfile hacc wire tf ha rest hok
    simp [recv_data_loop] at hok
  | succ fuel ih =>
    intro tfile hacc wire tf ha rest hok
    rw [recv_data_loop] at hok
    split at hok
    · simp at hok
    · rename_i rest1 heq
      simp only [Except.ok.injEq, Prod.mk.injEq] at hok
      refine ⟨[], [], ?_, rfl, ?_, ?_⟩
      · simp only [decodeTokens, heq, hok.2.2]
      · simp [hok.1]
      · simp [hok.2.1]
    · rename_i buf rest1 heq
      obtain ⟨toks, ps, hdec, hmap, htf, hha⟩ := ih _ _ _ _ _ _ hok
      refine ⟨.Data buf :: toks, buf :: ps, ?_, ?_, ?_, ?_⟩
      · simp only [decodeTokens, heq, hdec, Option.map_some']
      · simp only [tokenPayloads, tokenPayload, hmap]
      · simp [htf]
      · simp [hha]
    · rename_i k rest1 heq
      split at hok
      · simp at hok
      · rename_i bs
        split at hok
        · rename_i hbound
          obtain ⟨toks, ps, hdec, hmap, htf, hha⟩ := ih _ _ _ _ _ _ hok
          refine ⟨.Copied k :: toks,
            (bs.drop (k * h.block_len)).take (recvCopyLen h k) :: ps,
            ?_, ?_, ?_, ?_⟩
          · simp only [decodeTokens, heq, hdec, Option.map_some']
          · simp only [tokenPayloads, tokenPayload, hbound, if_pos, hmap]
          · simp [htf]
          · simp [hha]
        · simp at hok

/-- Claim C1: for every per-file reception that completes without error, the
bytes written to the temporary target file are, in order, the concatenation
of the token payloads (the bytes of each `Data` token, and for each `Copied`
token the bytes read from the basis file), and the MD4 digest of the 4
little-endian seed bytes followed by those bytes equals the trailing digest
read from the wire. -/
theorem recv_data_reconstruction (seed : Int) (basis : Option (List Nat))
    (wire tfile digest rest : List Nat)
    (hok : recv_data seed basis wire = .ok (tfile, digest, rest)) :
    ∃ h w1 toks w2 ps,
      SumHead.read_from wire = some (h, w1) ∧
      decodeTokens (w1.length + 1) w1 = some (toks, w2) ∧
      tokenPayloads h basis toks = some ps ∧
      tfile = ps.flatten ∧
      md4B (writeI32le seed ++ tfile) = digest := by
  rw [recv_data] at hok
  split at hok
  · simp at hok
  rename_i h w1 heq
  split at hok
  · simp at hok
  rename_i tf hacc w2 hloop
  split at hok
  · simp at hok
  rename_i d w3 hd
  split at hok
  · rename_i hsum
    simp only [Except.ok.injEq, Prod.mk.injEq] at hok
    obtain ⟨toks, ps, hdec, hmap, htf, hha⟩ :=
      recv_data_loop_ok h basis _ _ _ _ _ _ _ hloop
    refine ⟨h, w1, toks, w2, ps, heq, hdec, hmap, ?_, ?_⟩
    · rw [← hok.1, htf, List.nil_append]
    · rw [← hok.1, htf, List.nil_append, ← hha, hsum, hok.2.1]
  · simp at hok

/-- Witness wire for claim C1: seed 7, no basis, one `Data "hello"` token,
`Done`, then the matching digest. -/
def c1wire : List Nat :=
  SumHead.write_to ⟨0, 0, 16, 0⟩ ++ writeI32le 5 ++ [104, 101, 108, 108, 111] ++
    writeI32le 0 ++ md4B (writeI32le 7 ++ [104, 101, 108, 108, 111])

/-- Witness for claim C1 at a concrete successful reception. -/
theorem recv_data_reconstruction_witness :
    ∃ h w1 toks w2 ps,
      SumHead.read_from c1wire = some (h, w1) ∧
      decodeTokens (w1.length + 1) w1 = some (toks, w2) ∧
      tokenPayloads h none toks = some ps ∧
      [104, 101, 108, 108, 111] = ps.flatten ∧
      md4B (writeI32le 7 ++ [104, 101, 108, 108, 111]) =
        md4B (writeI32le 7 ++ [104, 101, 108, 108, 111]) :=
  recv_data_reconstruction 7 none c1wire [104, 101, 108, 108, 111]
    (md4B (writeI32le 7 ++ [104, 101, 108, 108, 111])) [] (by rfl)

/-! ## Claim C6: checksum mismatch aborts without touching the destination -/

/-- Claim C6: at any iteration of the receiver's main loop, if the per-file
token stream completes but the computed MD4 digest (over the seed bytes
followed by the reconstructed bytes `tf`) differs from the trailing digest
`d` read from the wire, the receiver fails with the checksum-mismatch error
and the filesystem is returned exactly as it was — the destination file is
neither created, truncated, nor overwritten, because the destination is only
written after verification succeeds. -/
theorem recv_task_checksum_mismatch (seed : Int) (file_list : List FileEntry)
    (now : MTime) (fuel phase : Nat) (fs : Fs) (wire : List Nat) (idx : Int)
    (rest : List Nat) (entry : FileEntry) (h : SumHead)
    (w1 tf hacc w2 d w3 : List Nat)
    (hfuel : 1 ≤ fuel)
    (hread : readI32le wire = some (idx, rest))
    (hne : idx ≠ -1)
    (hget : file_list.get? (usize_of_i32 idx) = some entry)
    (hsh : SumHead.read_from rest = some (h, w1))
    (hloop : recv_data_loop h ((fs_get fs entry.name).map (·.content))
      (w1.length + 1) [] (writeI32le seed) w1 = .ok (tf, hacc, w2))
    (hd : readExact 16 w2 = some (d, w3))
    (hmis : md4B (writeI32le seed ++ tf) ≠ d) :
    recv_task_loop seed file_list now fuel phase fs wire =
      .error (.checksumMismatch, fs) := by
  rcases fuel with _ | fuel
  · omega
  have hacc_eq : hacc = writeI32le seed ++ tf := by
    obtain ⟨toks, ps, _, _, htf, hha⟩ := recv_data_loop_ok _ _ _ _ _ _ _ _ _ hloop
    rw [hha, htf, List.nil_append]
  have hrd : recv_data seed ((fs_get fs entry.name).map (·.content)) rest =
      .error .checksumMismatch := by
    rw [recv_data]
    simp only [hsh, hloop, md4B_length, hd]
    rw [if_neg]
    rw [hacc_eq]
    exact hmis
  rw [recv_task_loop]
  simp only [hread, hne, ite_false, hget, hrd]

/-- Witness data for claim C6: one regular entry named `"a"`. -/
def c6entry : FileEntry := ⟨[97], 0, ⟨100, 0⟩, 33188, none, 0⟩

/-- Witness wire for claim C6: index 0, an all-zero `SumHead` (whole-file
mode), an immediate `Done`, then a trailing digest of 16 zero bytes, which
does not match the computed digest. -/
def c6wire : List Nat :=
  writeI32le 0 ++ SumHead.write_to ⟨0, 0, 16, 0⟩ ++ writeI32le 0 ++
    List.replicate 16 0

/-- Witness for claim C6 at a concrete mismatching reception. -/
theorem recv_task_checksum_mismatch_witness :
    recv_task_loop 5 [c6entry] ⟨0, 0⟩ (c6wire.length + 1) 0 [] c6wire =
      .error (.checksumMismatch, []) :=
  recv_task_checksum_mismatch 5 [c6entry] ⟨0, 0⟩ (c6wire.length + 1) 0 []
    c6wire 0 (SumHead.write_to ⟨0, 0, 16, 0⟩ ++ writeI32le 0 ++
      List.replicate 16 0) c6entry ⟨0, 0, 16, 0⟩
    (writeI32le 0 ++ List.replicate 16 0) [] (writeI32le 5)
    (List.replicate 16 0) (List.replicate 16 0) []
    (by decide) (by rfl) (by decide) (by rfl) (by rfl) (by rfl) (by rfl)
    (by decide)

/-! ## Claim C10: unchecked file-list indexing in the receiver loop -/

/-- Claim C10: every non-sentinel index read from the wire indexes the file
list without a bounds check; when a received `idx ≠ −1` violates
`0 ≤ idx < file_list.length`, the receiver panics with an out-of-bounds
index (the `idx as usize` cast sends negative indices above `2^63`), rather
than failing with a protocol error. -/
theorem recv_task_idx_out_of_bounds (seed : Int) (file_list : List FileEntry)
    (now : MTime) (fuel phase : Nat) (fs : Fs) (wire : List Nat) (idx : Int)
    (rest : List Nat)
    (hfuel : 1 ≤ fuel)
    (hread : readI32le wire = some (idx, rest))
    (hne : idx ≠ -1)
    (hoob : ¬ (0 ≤ idx ∧ idx < (file_list.length : Int)))
    (hlen : file_list.length < 9223372036854775808) :
    recv_task_loop seed file_list now fuel phase fs wire =
      .error (.panicked "index out of bounds", fs) := by
  rcases fuel with _ | fuel
  · omega
  have hrange := readI32le_range hread
  have hnone : file_list.get? (usize_of_i32 idx) = none := by
    rw [List.get?_eq_none, usize_of_i32]
    omega
  rw [recv_task_loop]
  simp only [hread, hne, ite_false, hnone]

/-- Witness for claim C10: index 3 against an empty file list panics. -/
theorem recv_task_idx_out_of_bounds_witness :
    recv_task_loop 0 [] ⟨0, 0⟩ 5 0 [] (writeI32le 3) =
      .error (.panicked "index out of bounds", []) :=
  recv_task_idx_out_of_bounds 0 [] ⟨0, 0⟩ 5 0 [] (writeI32le 3) 3 []
    (by decide) (by rfl) (by decide) (by decide) (by decide)

/-! ## Claim C2: the decoded file list is sorted and densely indexed -/

theorem byteListLt_irrefl : ∀ a, byteListLt a a = false
  | [] => rfl
  | _ :: xs => by simp [byteListLt, byteListLt_irrefl xs]

theorem byteListLt_trans : ∀ a b c, byteListLt a b = true →
    byteListLt b c = true → byteListLt a c = true := by
  intro a
  induction a with
  | nil =>
    intro b c hab hbc
    cases b with
    | nil => simp [byteListLt] at hab
    | cons y ys =>
      cases c with
      | nil => simp [byteListLt] at hbc
      | cons z zs => rfl
  | cons x xs ih =>
    intro b c hab hbc
    cases b with
    | nil => simp [byteListLt] at hab
    | cons y ys =>
      cases c with
      | nil => simp [byteListLt] at hbc
      | cons z zs =>
        by_cases h1 : x < y
        · by_cases h2 : y < z
          · have h3 : x < z := Nat.lt_trans h1 h2
            simp [byteListLt, h3]
          · by_cases h3 : z < y
            · simp [byteListLt, h2, h3] at hbc
            · have h4 : y = z := by omega
              subst h4
              simp [byteListLt, h1]
        · by_cases h2 : y < x
          · simp [byteListLt, h1, h2] at hab
          · have h3 : x = y := by omega
            subst h3
            simp only [byteListLt, lt_self_iff_false, if_false] at hab
            by_cases h4 : x < z
            · simp [byteListLt, h4]
            · by_cases h5 : z < x
              · simp [byteListLt, h4, h5] at hbc
              · have h6 : x = z := by omega
                subst h6
                simp only [byteListLt, lt_self_iff_false, if_false] at hbc ⊢
                exact ih ys zs hab hbc

theorem byteListLt_conn : ∀ a b, byteListLt a b = false →
    byteListLt b a = false → a = b := by
  intro a
  induction a with
  | nil =>
    intro b hab _
    cases b with
    | nil => rfl
    | cons y ys => simp [byteListLt] at hab
  | cons x xs ih =>
    intro b hab hba
    cases b with
    | nil => simp [byteListLt] at hba
    | cons y ys =>
      by_cases h1 : x < y
      · simp [byteListLt, h1] at hab
      · by_cases h2 : y < x
        · simp [byteListLt, h2] at hba
        · have h3 : x = y := by omega
          subst h3
          simp only [byteListLt, lt_self_iff_false, if_false] at hab hba
          rw [ih ys hab hba]

theorem byteListLt_asymm {a b : List Nat} (h1 : byteListLt a b = true)
    (h2 : byteListLt b a = true) : False := by
  have h := byteListLt_trans a b a h1 h2
  rw [byteListLt_irrefl] at h
  exact Bool.noConfusion h

instance : IsTotal FileEntry entry_le :=
  ⟨fun x y => by
    unfold entry_le
    cases h : byteListLt y.name x.name
    · exact Or.inl rfl
    · cases h2 : byteListLt x.name y.name
      · exact Or.inr rfl
      · exact absurd h2 (fun h2 => byteListLt_asymm h2 h)⟩

instance : IsTrans FileEntry entry_le :=
  ⟨fun x y z hxy hyz => by
    unfold entry_le at *
    cases hzx : byteListLt z.name x.name
    · rfl
    · exfalso
      cases hyz2 : byteListLt y.name z.name
      · have h := byteListLt_conn _ _ hyz hyz2
        rw [← h] at hxy
        rw [hxy] at hzx
        exact Bool.noConfusion hzx
      · have h := byteListLt_trans _ _ _ hyz2 hzx
        rw [h] at hxy
        exact Bool.noConfusion hxy⟩

theorem dedup_go_mem : ∀ (l : List FileEntry) (prev x), x ∈ dedup_go prev l →
    x ∈ l := by
  intro l
  induction l with
  | nil => intro prev x h; simp [dedup_go] at h
  | cons b r ih =>
    intro prev x h
    rw [dedup_go] at h
    split at h
    · exact List.mem_cons_of_mem b (ih prev x h)
    · rcases List.mem_cons.mp h with rfl | h'
      · exact List.mem_cons_self _ _
      · exact List.mem_cons_of_mem b (ih b x h')

theorem lt_of_le_of_name_ne {x y : FileEntry} (hle : entry_le x y)
    (hne : x.name ≠ y.name) : byteListLt x.name y.name = true := by
  unfold entry_le at hle
  cases h : byteListLt x.name y.name
  · exact absurd (byteListLt_conn _ _ h hle) hne
  · rfl

theorem dedup_go_pairwise : ∀ (l : List FileEntry) (a : FileEntry),
    (a :: l).Pairwise entry_le →
    (a :: dedup_go a l).Pairwise fun x y => byteListLt x.name y.name = true := by
  intro l
  induction l with
  | nil =>
    intro a _
    simp [dedup_go]
  | cons b r ih =>
    intro a hp
    obtain ⟨ha, hp'⟩ := List.pairwise_cons.mp hp
    rw [dedup_go]
    split
    · rename_i hname
      exact ih a (List.pairwise_cons.mpr
        ⟨fun x hx => ha x (List.mem_cons_of_mem b hx),
         (List.pairwise_cons.mp hp').2⟩)
    · rename_i hname
      rw [List.pairwise_cons]
      refine ⟨fun x hx => ?_, ih b hp'⟩
      rcases List.mem_cons.mp hx with rfl | hx'
      · exact lt_of_le_of_name_ne (ha x (List.mem_cons_self _ _))
          fun he => hname he.symm
      · have hxr := dedup_go_mem r b x hx'
        have hax : entry_le a x := ha x (List.mem_cons_of_mem b hxr)
        refine lt_of_le_of_name_ne hax fun he => ?_
        have hbx : entry_le b x := (List.pairwise_cons.mp hp').1 x hxr
        have hab : entry_le a b := ha b (List.mem_cons_self _ _)
        unfold entry_le at hbx hab
        rw [← he] at hbx
        exact hname (byteListLt_conn b.name a.name hab hbx)

theorem dedup_by_name_pairwise (l : List FileEntry)
    (h : l.Pairwise entry_le) :
    (dedup_by_name l).Pairwise fun x y => byteListLt x.name y.name = true := by
  cases l with
  | nil => simp [dedup_by_name]
  | cons a r => exact dedup_go_pairwise r a h

theorem assign_idx_map_name : ∀ (l : List FileEntry) (k : Int),
    (assign_idx k l).map (·.name) = l.map (·.name) := by
  intro l
  induction l with
  | nil => intro k; rfl
  | cons e r ih =>
    intro k
    simp [assign_idx, ih]

theorem assign_idx_length : ∀ (l : List FileEntry) (k : Int),
    (assign_idx k l).length = l.length := by
  intro l
  induction l with
  | nil => intro k; rfl
  | cons e r ih =>
    intro k
    simp [assign_idx, ih]

theorem assign_idx_get? : ∀ (l : List FileEntry) (k : Int) (i : Nat),
    ((assign_idx k l).get? i).map (·.idx) =
      if i < l.length then some (k + i) else none := by
  intro l
  induction l with
  | nil =>
    intro k i
    simp [assign_idx]
  | cons e r ih =>
    intro k i
    cases i with
    | zero => simp [assign_idx]
    | succ i =>
      have h1 : assign_idx k (e :: r) = { e with idx := k } :: assign_idx (k + 1) r := rfl
      rw [h1, List.get?_cons_succ, ih (k + 1) i, List.length_cons]
      by_cases hi : i < r.length
      · rw [if_pos hi, if_pos (by omega : i + 1 < r.length + 1)]
        congr 1
        push_cast
        ring
      · rw [if_neg hi, if_neg (by omega : ¬ i + 1 < r.length + 1)]

theorem pairwise_name_of_map {l₁ l₂ : List FileEntry}
    (hmap : l₁.map (·.name) = l₂.map (·.name))
    (h : l₂.Pairwise fun x y => byteListLt x.name y.name = true) :
    l₁.Pairwise fun x y => byteListLt x.name y.name = true := by
  have h2 : (l₂.map (·.name)).Pairwise fun a b => byteListLt a b = true :=
    List.pairwise_map.mpr h
  rw [← hmap] at h2
  exact List.pairwise_map.mp h2

theorem file_list_finalize_shape {raw l : List FileEntry}
    (h : file_list_finalize raw = .ok l) :
    l = assign_idx 0 (dedup_by_name (List.insertionSort entry_le raw)) := by
  unfold file_list_finalize at h
  split at h
  · simp at h
  · simp only [Except.ok.injEq] at h
    exact h.symm

theorem file_list_go_ok : ∀ (fuel : Nat) (acc : List FileEntry)
    (scratch wire : List Nat) (l : List FileEntry),
    file_list_go fuel acc scratch wire = .ok l →
    ∃ raw, file_list_finalize raw = .ok l := by
  intro fuel
  induction fuel with
  | zero =>
    intro acc scratch wire l h
    simp [file_list_go] at h
  | succ fuel ih =>
    intro acc scratch wire l h
    rw [file_list_go] at h
    split at h
    · simp at h
    split at h
    · exact ⟨acc, h⟩
    split at h
    · simp at h
    · exact ih _ _ _ _ h

/-- Claim C2: every decoded file list is strictly ascending under
lexicographic byte comparison of names — regardless of the order and
duplication of the entries on the wire, thanks to the sort and the adjacent
deduplication — and every entry's `idx` equals its 0-based position. -/
theorem recv_file_list_sorted_indexed (wire : List Nat) (l : List FileEntry)
    (hok : recv_file_list wire = .ok l) :
    (l.Pairwise fun x y => byteListLt x.name y.name = true) ∧
    ∀ i (hi : i < l.length), (l.get ⟨i, hi⟩).idx = (i : Int) := by
  obtain ⟨raw, hfin⟩ := file_list_go_ok _ _ _ _ _ hok
  have hl := file_list_finalize_shape hfin
  subst hl
  constructor
  · exact pairwise_name_of_map (assign_idx_map_name _ _)
      (dedup_by_name_pairwise _ (List.sorted_insertionSort entry_le raw))
  · intro i hi
    have hi' : i < (dedup_by_name (List.insertionSort entry_le raw)).length := by
      rw [← assign_idx_length _ (0 : Int)]
      exact hi
    have h1 := assign_idx_get? (dedup_by_name (List.insertionSort entry_le raw)) 0 i
    rw [if_pos hi', List.get?_eq_get hi, Option.map_some'] at h1
    have h2 := Option.some.inj h1
    rw [h2]
    omega

/-- Witness wire for claim C2: two records (names `"b"` then `"a"`, out of
order on the wire), each with flags `0x01` (`TOP_DIR` only), then the
terminator byte. -/
def c2wire : List Nat :=
  [1, 1, 98] ++ [5, 0, 0, 0] ++ [100, 0, 0, 0] ++ [164, 129, 0, 0] ++
  [1, 1, 97] ++ [5, 0, 0, 0] ++ [100, 0, 0, 0] ++ [164, 129, 0, 0] ++ [0]

/-- The list `c2wire` decodes to: sorted by name with dense indices. -/
def c2list : List FileEntry :=
  [⟨[97], 5, ⟨100, 0⟩, 33188, none, 0⟩, ⟨[98], 5, ⟨100, 0⟩, 33188, none, 1⟩]

/-- Witness for claim C2 at a concrete wire image. -/
theorem recv_file_list_sorted_indexed_witness :
    recv_file_list c2wire = .ok c2list ∧
      (c2list.Pairwise fun x y => byteListLt x.name y.name = true) := by
  have hok : recv_file_list c2wire = .ok c2list := by rfl
  exact ⟨hok, (recv_file_list_sorted_indexed c2wire c2list hok).1⟩

/-! ## Claim C3: the generator's skip decision -/

theorem unix_is_dir_false_of_file {mode : Nat} (h : unix_is_file mode = true) :
    unix_is_dir mode = false := by
  unfold unix_is_file at h
  unfold unix_is_dir
  simp only [beq_iff_eq] at h
  rw [h]
  decide

theorem writeI32le_ne_nil (t : Int) : writeI32le t ≠ [] := by
  simp [writeI32le, writeU32le]

/-- Claim C3 (amended): for a regular-file entry, the generator emits nothing
on the wire if and only if the destination path exists with size equal to
`entry.len` and mtime equal to `entry.modify_time` at whole-second
resolution — the source never checks that the destination is a regular file.
In every other case it writes the entry's `idx` followed by a `SumHead`. -/
theorem recv_generator_skip_iff (seed : Int) (entry : FileEntry)
    (dest : Option GMeta) (hreg : unix_is_file entry.mode = true) :
    ((recv_generator seed entry dest).1 = [] ↔
      ∃ m, dest = some m ∧ m.size = entry.len ∧
        mod_time_eq m.mtime entry.modify_time = true) ∧
    ((recv_generator seed entry dest).1 ≠ [] →
      ∃ h rest, (recv_generator seed entry dest).1 =
        writeI32le entry.idx ++ (SumHead.write_to h ++ rest)) := by
  have hdir := unix_is_dir_false_of_file hreg
  cases dest with
  | none =>
    simp only [recv_generator, hdir, hreg, Bool.false_eq_true, if_false,
      not_true, ite_false, ite_true, not_false_iff]
    constructor
    · constructor
      · intro h
        exact absurd h (by simp [writeI32le, writeU32le])
      · rintro ⟨m, hm, _⟩
        exact Option.noConfusion hm
    · intro _
      exact ⟨⟨0, 0, 0, 0⟩, [], rfl⟩
  | some m =>
    simp only [recv_generator, hdir, hreg, Bool.false_eq_true, if_false,
      not_true, ite_false, ite_true, not_false_iff]
    by_cases hskip : m.size = entry.len ∧ mod_time_eq m.mtime entry.modify_time = true
    · rw [if_pos hskip]
      constructor
      · exact ⟨fun _ => ⟨m, rfl, hskip⟩, fun _ => rfl⟩
      · intro h
        exact absurd rfl h
    · rw [if_neg hskip]
      rcases hsl : sums_loop seed (sum_sizes_sqroot m.size).block_len m.content
        (sum_sizes_sqroot m.size).checksum_count 0 m.size with ⟨sums, e⟩
      simp only [generate_and_send_sums, hsl]
      constructor
      · constructor
        · intro h
          exact absurd h (by simp [writeI32le, writeU32le])
        · rintro ⟨m', hm', hsz, hmt⟩
          rw [← Option.some.inj hm'] at hsz hmt
          exact absurd ⟨hsz, hmt⟩ hskip
      · intro _
        exact ⟨sum_sizes_sqroot m.size, sums, rfl⟩

/-- The regular-file entry of claim C3's counterexample and witness:
name `"a"`, length 4096, a whole-second mtime, mode `0o100644`. -/
def c3entry : FileEntry := ⟨[97], 4096, ⟨1700000000, 0⟩, 33188, none, 0⟩

/-- The destination of claim C3's counterexample: a directory whose stat size
(4096) and mtime coincide with the entry's. -/
def c3meta : GMeta := ⟨.directory, 4096, ⟨1700000000, 0⟩, []⟩

/-- Counterexample to claim C3 as stated: the generator emits nothing for a
regular-file entry although the destination is a directory, not a regular
file — the skip check compares only size and mtime. -/
theorem recv_generator_skips_directory :
    (recv_generator 0 c3entry (some c3meta)).1 = [] ∧
      c3meta.kind = FKind.directory ∧ FKind.directory ≠ FKind.regular :=
  ⟨rfl, rfl, by decide⟩

/-- Witness for claim C3's amended theorem: with no destination, the
generator writes the entry's index followed by a `SumHead`. -/
theorem recv_generator_skip_iff_witness :
    ∃ h rest, (recv_generator 0 c3entry none).1 =
      writeI32le c3entry.idx ++ (SumHead.write_to h ++ rest) :=
  (recv_generator_skip_iff 0 c3entry none (by decide)).2 (by decide)

/-! ## Claim C9: the path bound and the scratch-buffer assertion -/

theorem entry_name_lens_inh_lt {flags : Nat} {w : List Nat} {inh nl : Nat}
    {w2 : List Nat} (h : entry_name_lens flags w = some (inh, nl, w2)) :
    inh < 256 := by
  unfold entry_name_lens at h
  split at h
  · exact Option.noConfusion h
  · rename_i p heq
    split at h
    · exact Option.noConfusion h
    · rename_i q heq2
      simp only [Option.some.injEq, Prod.mk.injEq] at h
      rw [← h.1]
      split at heq
      · exact readU8_lt heq
      · simp only [Option.some.injEq, Prod.mk.injEq] at heq
        omega

/-- Claim C9 (amended): the decoder fails with `PathTooLong` whenever
`inherit_len + suffix_len` exceeds 4096; otherwise the `assert!` on the
scratch buffer passes **provided** `inherit_len` does not exceed the scratch
buffer's length. That invariant holds on conforming streams (a server
inherits at most the previous name's length) but not on all inputs: the
counterexample below makes the assertion fail, so the panic is reachable. -/
theorem recv_file_entry_bounds (flags : Nat) (name_scratch : List Nat)
    (prev : Option FileEntry) (w : List Nat) (inh nl : Nat) (w2 : List Nat)
    (hlens : entry_name_lens flags w = some (inh, nl, w2)) :
    (4096 < inh + nl →
      recv_file_entry flags name_scratch prev w = .error .pathTooLong) ∧
    (inh + nl ≤ 4096 → inh ≤ name_scratch.length →
      recv_file_entry flags name_scratch prev w ≠
        .error (.panicked "file list inconsistency")) := by
  have hinh := entry_name_lens_inh_lt hlens
  constructor
  · intro hbig
    simp only [recv_file_entry, hlens]
    rw [if_pos (by omega : 4096 - inh < nl)]
  · intro hsmall hscr
    simp only [recv_file_entry, hlens]
    rw [if_neg (by omega : ¬ 4096 - inh < nl), if_pos hscr]
    split
    · simp
    split
    · simp
    split
    · rename_i e heq
      intro hc
      injection hc with he
      subst he
      split at heq
      · split at heq
        · injection heq with h2
          injection h2 with h3
          exact absurd h3 (by decide)
        · exact Except.noConfusion heq
      · split at heq
        · injection heq with h2
          exact Err.noConfusion h2
        · exact Except.noConfusion heq
    split
    · rename_i e heq
      intro hc
      injection hc with he
      subst he
      split at heq
      · split at heq
        · injection heq with h2
          injection h2 with h3
          exact absurd h3 (by decide)
        · exact Except.noConfusion heq
      · split at heq
        · injection heq with h2
          exact Err.noConfusion h2
        · exact Except.noConfusion heq
    split
    · split
      · simp
      · split
        · simp
        · simp
    · simp

/-- Counterexample to claim C9 as stated: on the very first record a
`SAME_NAME` flag (bit 5) with `inherit_len = 1` passes the `PathTooLong`
bound (`1 + 0 ≤ 4096`) yet violates the claimed invariant — the scratch
buffer is empty — so the decoder's assertion fails with a panic. -/
theorem recv_file_entry_assert_reachable :
    entry_name_lens 32 [1, 0] = some (1, 0, []) ∧ 1 + 0 ≤ 4096 ∧
      recv_file_entry 32 [] none [1, 0] =
        .error (.panicked "file list inconsistency") :=
  ⟨rfl, by decide, rfl⟩

/-- Witness for claim C9's amended theorem: an oversized record is rejected
with `PathTooLong`. Flags `0x40` (`LONG_NAME`) and a 32-bit suffix length of
5000 exceed the 4096-byte bound. -/
theorem recv_file_entry_bounds_witness :
    recv_file_entry 64 [] none [136, 19, 0, 0] = .error .pathTooLong :=
  (recv_file_entry_bounds 64 [] none [136, 19, 0, 0] 0 5000 []
    (by rfl)).1 (by decide)

/-! ## Claim C8: greeting versions below 27 are rejected early -/

/-- Claim C8: whenever the parsed major protocol version `v` of the server's
greeting line is below 27, the handshake fails with `VersionTooOld v` having
written only the client greeting — the module name is not yet on the wire. -/
theorem handshake_version_too_old (module path : String) (rx : List Char)
    (v : Int) (hv : greeting_version (read_line rx).1 = some v)
    (hlt : v < 27) :
    start_inband_exchange module path rx =
      (["@RSYNCD: 27.0\n"], .error (.versionTooOld v)) := by
  unfold start_inband_exchange
  simp only [hv, hlt, ite_true, if_pos hlt]

/-- Witness for claim C8: the greeting `@RSYNCD: 26.0` is rejected with
`VersionTooOld 26` before the module name is written. -/
theorem handshake_version_too_old_witness :
    start_inband_exchange "module" "path" ("@RSYNCD: 26.0\nrest").toList =
      (["@RSYNCD: 27.0\n"], .error (.versionTooOld 26)) :=
  handshake_version_too_old "module" "path" ("@RSYNCD: 26.0\nrest").toList 26
    (by rfl) (by decide)

end RsyncPoc
